import Mathlib

/-!
Shallow embedding of the MASP simulation ledger (src/src/main.rs): notes with
content-derived commitments, users holding note lists, an association-list
ledger keyed by identity, and the `verify_transaction` state transition.
Rust's in-place mutation is rendered as explicit state passing; `u64` amounts
are `Nat` with arithmetic reduced `% 2 ^ 64` where the source can overflow.
-/

namespace Masp

/-- A note: asset type tag and a u64 amount (`struct Note` in the source). -/
structure Note where
  asset_type : String
  amount : Nat
deriving DecidableEq

/-- Injective-style encoding of a string, used to build commitments. -/
def strEncode (s : String) : Nat :=
  s.data.foldl (fun a c => a * 1114112 + (c.toNat + 1)) 0

/-- `Note::commit`: the source hashes the note's content with `DefaultHasher`.
The spec treats the commitment scheme abstractly as a deterministic,
collision-resistant function of the note content; we model it as a concrete
deterministic pairing of the content fields. -/
def Note.commit (n : Note) : Nat :=
  Nat.pair (strEncode n.asset_type) n.amount

/-- `struct Transaction`: source commitment, recipient id, destination
commitment. -/
structure Transaction where
  from_commit : Nat
  to_user : String  -- the source names this field `to`, a reserved word here
  to_commit : Nat
deriving DecidableEq

/-- `struct User`: identity plus owned notes (a `Vec<Note>`). -/
structure User where
  id : String
  notes : List Note
deriving DecidableEq

/-- `User::add_note`: push a note at the end of the owned list. -/
def User.add_note (u : User) (n : Note) : User :=
  { u with notes := u.notes ++ [n] }

/-- Remove the first note whose commitment matches, returning it; models
`Vec::position` on `x.commit() == commit` followed by `Vec::remove`. -/
def removeFirstNote : List Note → Nat → Option Note × List Note
  | [], _ => (none, [])
  | n :: rest, c =>
      if n.commit = c then (some n, rest)
      else
        let p := removeFirstNote rest c
        (p.1, n :: p.2)

/-- `User::remove_note`: remove and return the first owned note whose
recomputed commitment equals `c`; `none` and no change when absent. -/
def User.remove_note (u : User) (c : Nat) : Option Note × User :=
  let p := removeFirstNote u.notes c
  (p.1, { u with notes := p.2 })

/-- `User::merge_notes`: `retain` drops every note of the asset type while
accumulating their total amount (u64 addition, modelled `% 2 ^ 64`); if the
total is positive a single consolidated note is pushed. -/
def User.merge_notes (u : User) (a : String) : User :=
  let amount := u.notes.foldl
    (fun s n => if n.asset_type = a then (s + n.amount) % 2 ^ 64 else s) 0
  let kept := u.notes.filter (fun n => decide (n.asset_type ≠ a))
  if 0 < amount then { u with notes := kept ++ [Note.mk a amount] }
  else { u with notes := kept }

/-- The ledger: `HashMap<String, User>`, modelled as an association list with
first-match lookup (a `HashMap` never holds duplicate keys, so first-match
and unique-key semantics coincide). -/
abbrev Ledger := List (String × User)

/-- `users.get(k)` read access: the first entry with key `k`. -/
def findUser : Ledger → String → Option User
  | [], _ => none
  | (k', u) :: rest, k => if k' = k then some u else findUser rest k

/-- `users.get_mut(k)` followed by a mutation `f` of the entry: apply `f` to
the first entry with key `k`, leaving everything else in place. -/
def updateFirst : Ledger → String → (User → User) → Ledger
  | [], _, _ => []
  | (k', u) :: rest, k, f =>
      if k' = k then (k', f u) :: rest else (k', u) :: updateFirst rest k f

/-- `verify_transaction`: if the recipient exists it is credited a hardcoded
`{BTC, 50}` note; then, if user `"Alice"` exists, Alice has the note matching
`transaction.from_commit` removed (if any) and is credited a hardcoded
`{BTC, 50}` note, and the function returns `true`; either missing user makes
it return `false` (after the recipient credit, in the second case). -/
def verify_transaction (users : Ledger) (t : Transaction) : Bool × Ledger :=
  match findUser users t.to_user with
  | some _ =>
      let users1 := updateFirst users t.to_user
        (fun u => u.add_note (Note.mk "BTC" 50))
      match findUser users1 "Alice" with
      | some _ =>
          let users2 := updateFirst users1 "Alice"
            (fun u => ((u.remove_note t.from_commit).2).add_note
              (Note.mk "BTC" 50))
          (true, users2)
      | none => (false, users1)
  | none => (false, users)

/-- Total amount of a given asset type in a list of notes (the spec's
"sum of amounts per asset_type" for one account). -/
def noteSum : List Note → String → Nat
  | [], _ => 0
  | n :: l, a => (if n.asset_type = a then n.amount else 0) + noteSum l a

/-- Total amount of a given asset type across the whole ledger. -/
def ledgerSum : Ledger → String → Nat
  | [], _ => 0
  | (_, u) :: l, a => noteSum u.notes a + ledgerSum l a

/-! ### Helper lemmas on ledger lookup and update -/

theorem findUser_updateFirst (l : Ledger) (k k' : String) (f : User → User) :
    findUser (updateFirst l k f) k' =
      if k' = k then (findUser l k).map f else findUser l k' := by
  induction l with
  | nil => simp [findUser, updateFirst]
  | cons p rest ih =>
      obtain ⟨k₀, u⟩ := p
      by_cases h0 : k₀ = k
      · subst h0
        by_cases h1 : k₀ = k'
        · subst h1
          simp [findUser, updateFirst]
        · simp [findUser, updateFirst, h1, Ne.symm h1]
      · by_cases h1 : k₀ = k'
        · subst h1
          simp [findUser, updateFirst, h0, Ne.symm h0]
        · simp [findUser, updateFirst, h0, h1, ih]

theorem findUser_updateFirst_self (l : Ledger) (k : String) (f : User → User) :
    findUser (updateFirst l k f) k = (findUser l k).map f := by
  simp [findUser_updateFirst]

theorem findUser_updateFirst_ne (l : Ledger) (k k' : String) (f : User → User)
    (h : k' ≠ k) : findUser (updateFirst l k f) k' = findUser l k' := by
  simp [findUser_updateFirst, h]

/-! ### Helper lemmas on note removal -/

theorem removeFirstNote_of_no_match (l : List Note) (c : Nat)
    (h : ∀ n ∈ l, n.commit ≠ c) : removeFirstNote l c = (none, l) := by
  induction l with
  | nil => rfl
  | cons n rest ih =>
      have hn : ¬ n.commit = c := h n (by simp)
      simp [removeFirstNote, hn, ih (fun m hm => h m (by simp [hm]))]

theorem removeFirstNote_first (pre : List Note) (n : Note) (rest : List Note)
    (c : Nat) (hpre : ∀ m ∈ pre, m.commit ≠ c) (hn : n.commit = c) :
    removeFirstNote (pre ++ n :: rest) c = (some n, pre ++ rest) := by
  induction pre with
  | nil => simp [removeFirstNote, hn]
  | cons m pre ih =>
      have hm : ¬ m.commit = c := hpre m (by simp)
      simp [removeFirstNote, hm, ih (fun x hx => hpre x (by simp [hx]))]

/-! ### Helper lemmas on sums and the merge fold -/

theorem noteSum_append (l₁ l₂ : List Note) (a : String) :
    noteSum (l₁ ++ l₂) a = noteSum l₁ a + noteSum l₂ a := by
  induction l₁ with
  | nil => simp [noteSum]
  | cons n rest ih => simp [noteSum, ih]; omega

theorem noteSum_of_no_match (l : List Note) (a : String)
    (h : ∀ n ∈ l, n.asset_type ≠ a) : noteSum l a = 0 := by
  induction l with
  | nil => rfl
  | cons n rest ih =>
      have hn : ¬ n.asset_type = a := h n (by simp)
      simp [noteSum, hn, ih (fun m hm => h m (by simp [hm]))]

theorem mergeFold_eq (l : List Note) (a : String) (c : Nat) (hc : c < 2 ^ 64) :
    l.foldl (fun s n => if n.asset_type = a then (s + n.amount) % 2 ^ 64 else s) c
      = (c + noteSum l a) % 2 ^ 64 := by
  induction l generalizing c with
  | nil => simpa [noteSum] using (Nat.mod_eq_of_lt hc).symm
  | cons n rest ih =>
      simp only [List.foldl_cons, noteSum]
      by_cases hn : n.asset_type = a
      · rw [if_pos hn, if_pos hn, ih _ (Nat.mod_lt _ (by norm_num)),
          Nat.mod_add_mod, Nat.add_assoc]
      · rw [if_neg hn, if_neg hn, ih _ hc]
        simp

theorem mem_filter_match (l : List Note) (a : String) :
    ∀ n ∈ l.filter (fun n => decide (n.asset_type ≠ a)), n.asset_type ≠ a := by
  intro n hn
  exact of_decide_eq_true (List.mem_filter.mp hn).2

theorem filter_self_eq (p : Note → Bool) (l : List Note) :
    (l.filter p).filter p = l.filter p := by
  rw [List.filter_filter]
  exact List.filter_congr (fun n _ => by cases h : p n <;> simp [h])

theorem filter_match_of_filter_no_match (l : List Note) (a : String) :
    (l.filter (fun n => decide (n.asset_type ≠ a))).filter
      (fun n => decide (n.asset_type = a)) = [] := by
  rw [List.filter_filter]
  rw [List.filter_eq_nil_iff]
  intro n _
  cases h : decide (n.asset_type = a) <;> simp [h]

/-- Closed form of `merge_notes`: the kept notes are those of other asset
types in order, followed by one consolidated note exactly when the (wrapped)
total of the matching amounts is nonzero. -/
theorem merge_notes_eq (u : User) (a : String) :
    u.merge_notes a = User.mk u.id
      (if noteSum u.notes a % 2 ^ 64 = 0
        then u.notes.filter (fun n => decide (n.asset_type ≠ a))
        else u.notes.filter (fun n => decide (n.asset_type ≠ a))
          ++ [Note.mk a (noteSum u.notes a % 2 ^ 64)]) := by
  unfold User.merge_notes
  rw [mergeFold_eq u.notes a 0 (by norm_num), Nat.zero_add]
  have key : ∀ (X : Nat) (A B : List Note),
      (if 0 < X then ({ id := u.id, notes := A } : User)
        else { id := u.id, notes := B })
        = User.mk u.id (if X = 0 then B else A) := by
    intro X A B
    by_cases h : X = 0
    · subst h; simp
    · simp [h, Nat.pos_of_ne_zero h]
  exact key _ _ _

/-! ### Claim theorems -/

/-- Claim C1: the spec asserts per-asset conservation across accepted
transactions. The code violates it: on a ledger holding no BTC at all,
`verify_transaction` accepts a transaction and the ledger afterwards holds
100 BTC (two hardcoded `{BTC, 50}` credits), so value is minted. -/
theorem verify_transaction_mints_value :
    (verify_transaction [("Alice", User.mk "Alice" []), ("Bob", User.mk "Bob" [])]
        (Transaction.mk 0 "Bob" 0)).1 = true ∧
    ledgerSum [("Alice", User.mk "Alice" []), ("Bob", User.mk "Bob" [])] "BTC" = 0 ∧
    ledgerSum (verify_transaction
        [("Alice", User.mk "Alice" []), ("Bob", User.mk "Bob" [])]
        (Transaction.mk 0 "Bob" 0)).2 "BTC" = 100 := by
  decide

/-- Claim C2: the spec asserts that a transaction whose source commitment
resolves to no note in the ledger is rejected with the ledger unchanged. The
code violates it: commitment `0` matches no note below, yet the transaction
is accepted and the ledger mutated. -/
theorem verify_transaction_accepts_unknown_source :
    ([("Alice", User.mk "Alice" [Note.mk "BTC" 100]), ("Bob", User.mk "Bob" [])].all
        (fun p => p.2.notes.all (fun n => !(n.commit == 0))) = true) ∧
    (verify_transaction
        [("Alice", User.mk "Alice" [Note.mk "BTC" 100]), ("Bob", User.mk "Bob" [])]
        (Transaction.mk 0 "Bob" 0)).1 = true ∧
    (verify_transaction
        [("Alice", User.mk "Alice" [Note.mk "BTC" 100]), ("Bob", User.mk "Bob" [])]
        (Transaction.mk 0 "Bob" 0)).2
      ≠ [("Alice", User.mk "Alice" [Note.mk "BTC" 100]), ("Bob", User.mk "Bob" [])] := by
  decide

/-- Claim C3: the spec asserts atomicity — a rejected transaction leaves the
ledger identical. The code violates it: with no `"Alice"` user the call
returns `false`, but the recipient `"Bob"` has already been credited a
`{BTC, 50}` note, so the ledger changed on rejection. -/
theorem verify_transaction_rejection_mutates_ledger :
    (verify_transaction [("Bob", User.mk "Bob" [])] (Transaction.mk 0 "Bob" 0)).1
      = false ∧
    (verify_transaction [("Bob", User.mk "Bob" [])] (Transaction.mk 0 "Bob" 0)).2
      ≠ [("Bob", User.mk "Bob" [])] := by
  decide

/-- Claim C4: the spec asserts no double spend — after one accepted
transaction consumes commitment `C`, a later transaction with source `C`
must be rejected. The code violates it: the first call consumes Alice's
`{BTC, 100}` note (her account then holds only the `{BTC, 50}` credit), and
a second call with the same source commitment is accepted again. -/
theorem verify_transaction_double_spend_accepted :
    (verify_transaction
        [("Alice", User.mk "Alice" [Note.mk "BTC" 100]), ("Bob", User.mk "Bob" [])]
        (Transaction.mk (Note.commit (Note.mk "BTC" 100)) "Bob" 0)).1 = true ∧
    findUser (verify_transaction
        [("Alice", User.mk "Alice" [Note.mk "BTC" 100]), ("Bob", User.mk "Bob" [])]
        (Transaction.mk (Note.commit (Note.mk "BTC" 100)) "Bob" 0)).2 "Alice"
      = some (User.mk "Alice" [Note.mk "BTC" 50]) ∧
    (verify_transaction
        (verify_transaction
          [("Alice", User.mk "Alice" [Note.mk "BTC" 100]), ("Bob", User.mk "Bob" [])]
          (Transaction.mk (Note.commit (Note.mk "BTC" 100)) "Bob" 0)).2
        (Transaction.mk (Note.commit (Note.mk "BTC" 100)) "Bob" 0)).1 = true := by
  decide

/-- Claim C5: the spec asserts that a transaction whose source note is owned
by an account other than the authorized sender must fail (the code's only
debit target — its de-facto sender — is the hardcoded `"Alice"`). The code
violates it: below, `"Bob"` (and only Bob) owns the note matching the source
commitment, yet the transaction is accepted. -/
theorem verify_transaction_ignores_owner :
    findUser [("Alice", User.mk "Alice" []), ("Bob", User.mk "Bob" [Note.mk "ETH" 7])]
        "Bob" = some (User.mk "Bob" [Note.mk "ETH" 7]) ∧
    ([("Alice", User.mk "Alice" []), ("Bob", User.mk "Bob" [Note.mk "ETH" 7])].all
        (fun p => p.1 == "Bob"
          || p.2.notes.all (fun n => !(n.commit == Note.commit (Note.mk "ETH" 7))))
      = true) ∧
    (verify_transaction
        [("Alice", User.mk "Alice" []), ("Bob", User.mk "Bob" [Note.mk "ETH" 7])]
        (Transaction.mk (Note.commit (Note.mk "ETH" 7)) "Bob" 0)).1 = true := by
  decide

/-- Claim C7: `remove_note` scans the owned notes and removes and returns the
first note (in insertion order) whose recomputed commitment equals `c`; when
no note matches it returns `none` and removes nothing; even when several
notes share the commitment, only that first occurrence is removed. -/
theorem remove_note_first_match (u : User) (c : Nat) :
    ((∀ n ∈ u.notes, n.commit ≠ c) → u.remove_note c = (none, u)) ∧
    (∀ pre n rest, u.notes = pre ++ n :: rest → (∀ m ∈ pre, m.commit ≠ c) →
        n.commit = c → u.remove_note c = (some n, User.mk u.id (pre ++ rest))) := by
  constructor
  · intro h
    simp [User.remove_note, removeFirstNote_of_no_match u.notes c h]
  · intro pre n rest hsplit hpre hn
    simp [User.remove_note, hsplit, removeFirstNote_first pre n rest c hpre hn]

/-- Witness for C7 at a concrete account: removing by the commitment of the
second note returns that note and keeps the first. -/
theorem remove_note_first_match_witness :
    (User.mk "Carol" [Note.mk "BTC" 1, Note.mk "ETH" 2]).remove_note
        (Note.commit (Note.mk "ETH" 2)) =
      (some (Note.mk "ETH" 2), User.mk "Carol" [Note.mk "BTC" 1]) := by
  exact (remove_note_first_match
      (User.mk "Carol" [Note.mk "BTC" 1, Note.mk "ETH" 2])
      (Note.commit (Note.mk "ETH" 2))).2
    [Note.mk "BTC" 1] (Note.mk "ETH" 2) [] rfl (by decide) rfl

/-- Claim C10: `verify_transaction` returns `true` exactly when both the
recipient identity and the literal identity `"Alice"` are keys of the users
map; the right-hand side mentions only key membership, so the returned value
is independent of the commitments and of any note held by any account. -/
theorem verify_transaction_decides_by_membership (users : Ledger)
    (t : Transaction) :
    (verify_transaction users t).1 =
      ((findUser users t.to_user).isSome && (findUser users "Alice").isSome) := by
  cases h1 : findUser users t.to_user with
  | none => simp [verify_transaction, h1]
  | some u =>
      have h2 : (findUser (updateFirst users t.to_user
          (fun u => u.add_note (Note.mk "BTC" 50))) "Alice").isSome
          = (findUser users "Alice").isSome := by
        rw [findUser_updateFirst]
        by_cases hA : ("Alice" : String) = t.to_user
        · rw [if_pos hA, hA, h1]
          simp
        · rw [if_neg hA]
      cases h3 : findUser (updateFirst users t.to_user
          (fun u => u.add_note (Note.mk "BTC" 50))) "Alice" with
      | none =>
          rw [h3] at h2
          simp [verify_transaction, h1, h3, h2.symm]
      | some v =>
          rw [h3] at h2
          simp [verify_transaction, h1, h3, h2.symm]

/-- Claim C6: whenever the users map contains both the recipient and
`"Alice"`, the call succeeds, the recipient is credited the fixed note
`{BTC, 50}`, and Alice — after the removal keyed on the source commitment —
is credited another fixed `{BTC, 50}` note, for every transaction (no
constraint on its commitments or on any referenced note's content). -/
theorem verify_transaction_credits_fixed_notes (users : Ledger)
    (t : Transaction) (uA : User) (hA : findUser users "Alice" = some uA)
    (hR : (findUser users t.to_user).isSome) :
    (verify_transaction users t).1 = true ∧
    (∀ uR, t.to_user ≠ "Alice" → findUser users t.to_user = some uR →
        findUser (verify_transaction users t).2 t.to_user =
          some (User.mk uR.id (uR.notes ++ [Note.mk "BTC" 50]))) ∧
    findUser (verify_transaction users t).2 "Alice" =
      some ((((if t.to_user = "Alice" then uA.add_note (Note.mk "BTC" 50)
          else uA).remove_note t.from_commit).2).add_note (Note.mk "BTC" 50)) := by
  obtain ⟨uR0, h1⟩ := Option.isSome_iff_exists.mp hR
  have hA1 : findUser (updateFirst users t.to_user
      (fun u => u.add_note (Note.mk "BTC" 50))) "Alice"
      = some (if t.to_user = "Alice" then uA.add_note (Note.mk "BTC" 50)
          else uA) := by
    rw [findUser_updateFirst]
    by_cases hcase : t.to_user = "Alice"
    · have hfa : findUser users t.to_user = some uA := by rw [hcase]; exact hA
      rw [if_pos hcase.symm, hfa, if_pos hcase]
      rfl
    · rw [if_neg (Ne.symm hcase), hA, if_neg hcase]
  have hv : verify_transaction users t =
      (true, updateFirst (updateFirst users t.to_user
          (fun u => u.add_note (Note.mk "BTC" 50))) "Alice"
        (fun u => ((u.remove_note t.from_commit).2).add_note
          (Note.mk "BTC" 50))) := by
    simp [verify_transaction, h1, hA1]
  refine ⟨by rw [hv], ?_, ?_⟩
  · intro uR hne huR
    rw [hv]
    show findUser (updateFirst _ "Alice" _) t.to_user = _
    rw [findUser_updateFirst_ne _ _ _ _ hne, findUser_updateFirst_self, huR]
    rfl
  · rw [hv]
    show findUser (updateFirst _ "Alice" _) "Alice" = _
    rw [findUser_updateFirst_self, hA1]
    rfl

/-- Witness for C6 at a concrete ledger: with Alice and Bob present and a
transaction to Bob whose source commitment matches nothing, both accounts
end up credited with the fixed `{BTC, 50}` note. -/
theorem verify_transaction_credits_fixed_notes_witness :
    (verify_transaction [("Alice", User.mk "Alice" []), ("Bob", User.mk "Bob" [])]
        (Transaction.mk 0 "Bob" 0)).1 = true ∧
    findUser (verify_transaction
        [("Alice", User.mk "Alice" []), ("Bob", User.mk "Bob" [])]
        (Transaction.mk 0 "Bob" 0)).2 "Bob"
      = some (User.mk "Bob" [Note.mk "BTC" 50]) ∧
    findUser (verify_transaction
        [("Alice", User.mk "Alice" []), ("Bob", User.mk "Bob" [])]
        (Transaction.mk 0 "Bob" 0)).2 "Alice"
      = some (User.mk "Alice" [Note.mk "BTC" 50]) := by
  have h := verify_transaction_credits_fixed_notes
    [("Alice", User.mk "Alice" []), ("Bob", User.mk "Bob" [])]
    (Transaction.mk 0 "Bob" 0) (User.mk "Alice" []) (by decide) (by decide)
  refine ⟨h.1, ?_, ?_⟩
  · exact (h.2.1 (User.mk "Bob" []) (by decide) (by decide)).trans (by decide)
  · exact h.2.2.trans (by decide)

/-- Counterexample to claim C8 as stated: when the matching notes sum to
zero the operation is claimed to leave the collection unchanged, but the
code still deletes the matching zero-amount note. -/
theorem merge_notes_zero_sum_not_noop :
    noteSum (User.mk "Carol" [Note.mk "BTC" 0]).notes "BTC" = 0 ∧
    (User.mk "Carol" [Note.mk "BTC" 0]).merge_notes "BTC"
      ≠ User.mk "Carol" [Note.mk "BTC" 0] := by
  decide

/-- Claim C8 (amended): `merge_notes` removes every note of the asset type
and, when their total amount (u64-wrapped) is nonzero, appends one
consolidated note carrying that total; notes of other asset types are kept
untouched in order; with no matching note it is a no-op; matching notes
summing to zero are still removed, with no replacement created. -/
theorem merge_notes_spec (u : User) (a : String) :
    (u.merge_notes a).notes.filter (fun n => decide (n.asset_type ≠ a))
        = u.notes.filter (fun n => decide (n.asset_type ≠ a)) ∧
    (u.merge_notes a).notes.filter (fun n => decide (n.asset_type = a))
        = (if noteSum u.notes a % 2 ^ 64 = 0 then []
           else [Note.mk a (noteSum u.notes a % 2 ^ 64)]) ∧
    ((∀ n ∈ u.notes, n.asset_type ≠ a) → u.merge_notes a = u) := by
  refine ⟨?_, ?_, ?_⟩
  · rw [merge_notes_eq]
    by_cases h : noteSum u.notes a % 2 ^ 64 = 0
    · simp only [if_pos h]
      exact filter_self_eq _ _
    · simp only [if_neg h, List.filter_append, filter_self_eq]
      simp
  · rw [merge_notes_eq]
    by_cases h : noteSum u.notes a % 2 ^ 64 = 0
    · simp only [if_pos h]
      exact filter_match_of_filter_no_match _ _
    · simp only [if_neg h, List.filter_append, filter_match_of_filter_no_match]
      simp
  · intro h
    have hfil : u.notes.filter (fun n => decide (n.asset_type ≠ a)) = u.notes :=
      List.filter_eq_self.mpr (fun n hn => decide_eq_true (h n hn))
    rw [merge_notes_eq, noteSum_of_no_match u.notes a h,
      if_pos (by norm_num), hfil]

/-- Witness for C8 at a concrete account holding no BTC note: merging BTC is
a no-op. -/
theorem merge_notes_spec_witness :
    (User.mk "Carol" [Note.mk "ETH" 2]).merge_notes "BTC"
      = User.mk "Carol" [Note.mk "ETH" 2] := by
  exact (merge_notes_spec (User.mk "Carol" [Note.mk "ETH" 2]) "BTC").2.2
    (by decide)

/-- Claim C9: `merge_notes` is idempotent — a second consecutive merge of
the same asset type leaves the account exactly as after the first. -/
theorem merge_notes_idempotent (u : User) (a : String) :
    (u.merge_notes a).merge_notes a = u.merge_notes a := by
  have hkept := mem_filter_match u.notes a
  rw [merge_notes_eq u a]
  by_cases h : noteSum u.notes a % 2 ^ 64 = 0
  · rw [if_pos h, merge_notes_eq]
    rw [noteSum_of_no_match _ _ hkept, if_pos (by norm_num), filter_self_eq]
  · rw [if_neg h, merge_notes_eq]
    have hsW : noteSum u.notes a % 2 ^ 64 < 2 ^ 64 :=
      Nat.mod_lt _ (by norm_num)
    have hsum : noteSum
        (u.notes.filter (fun n => decide (n.asset_type ≠ a))
          ++ [Note.mk a (noteSum u.notes a % 2 ^ 64)]) a
        = noteSum u.notes a % 2 ^ 64 := by
      rw [noteSum_append, noteSum_of_no_match _ _ hkept]
      simp [noteSum]
    rw [hsum, Nat.mod_eq_of_lt hsW, if_neg h]
    congr 1
    rw [List.filter_append, filter_self_eq]
    simp

end Masp
